import Mathlib

/-!
Verification of the product-catalog reconciliation scripts.

The development shallowly embeds the two Node.js scripts of the repository:
`src/update-catalog.js` (the reconciliation engine) together with its
deletion-stream helpers, and `src/generate-dataset.js` (the synthetic
dataset generator) together with its `ProductStream` variant.

Identifiers are modelled as naturals (the scripts treat them as opaque keys),
timestamps as naturals, prices as rationals, and randomness (uuids, random
prices, `Math.random()` draws, the current time) as explicit parameters.
The sequential event-loop behaviour of one run is modelled as a list of
observable events.
-/

namespace Catalog

set_option maxRecDepth 8192

/-- Chunk size used by `src/update-catalog.js` for the upsert batches
(`const CHUNK_SIZE = 1000`). The deletion-streams module reads the same
identifier, although no binding for it exists in that module's own scope. -/
def CHUNK_SIZE : Nat := 1000

/-- Database name used by both scripts (`test-product-catalog`). -/
def DATABASE_NAME : String := "test-product-catalog"

/-- Modelled from the spec: the Record ("Product") data model of the data-model
section; the class file `product.js` is required by both scripts but is not
among the provided sources. Fields follow the spec: an opaque unique
identifier, a display name, a price, and the two timestamps. -/
structure Product where
  _id : Nat
  name : String
  price : ℚ
  createdAt : Nat
  updatedAt : Nat
  deriving DecidableEq, Repr

/-- Modelled from the spec: the Metrics accumulator (`helpers/metrics.js` is not
among the provided sources): a triple of non-negative counters with `zero`,
the three unit constructors, and element-wise `merge`. -/
structure Metrics where
  addedCount : Nat
  updatedCount : Nat
  deletedCount : Nat
  deriving DecidableEq, Repr

/-- Modelled from the spec: `Metrics.zero()` — all counters zero. -/
def Metrics.zero : Metrics := ⟨0, 0, 0⟩

/-- Modelled from the spec: `Metrics.added()` — addedCount at 1, rest 0. -/
def Metrics.added : Metrics := ⟨1, 0, 0⟩

/-- Modelled from the spec: `Metrics.updated()` — updatedCount at 1, rest 0. -/
def Metrics.updated : Metrics := ⟨0, 1, 0⟩

/-- Modelled from the spec: `Metrics.deleted()` — deletedCount at 1, rest 0. -/
def Metrics.deleted : Metrics := ⟨0, 0, 1⟩

/-- Modelled from the spec: `merge(other)` — element-wise sum. -/
def Metrics.merge (m o : Metrics) : Metrics :=
  ⟨m.addedCount + o.addedCount, m.updatedCount + o.updatedCount,
    m.deletedCount + o.deletedCount⟩

/-- The result object of a MongoDB `bulkWrite` call, restricted to the two
fields the engine reads (`modifiedCount`, `upsertedCount`). -/
structure UpdateResult where
  modifiedCount : Nat
  upsertedCount : Nat
  deriving DecidableEq, Repr

/-- Embeds `updateMetrics` from `updateDataset` (src/update-catalog.js): the
JS truthiness tests `if (updateResult.modifiedCount)` and
`if (updateResult.upsertedCount)` become `≠ 0` on the modelled counts. -/
def updateMetrics (m : Metrics) (r : UpdateResult) : Metrics :=
  let m1 :=
    if r.modifiedCount ≠ 0 then
      { m with updatedCount := m.updatedCount + r.modifiedCount }
    else m
  if r.upsertedCount ≠ 0 then
    { m1 with addedCount := m1.addedCount + r.upsertedCount }
  else m1

/-- The slicing loop shared by `arrayToStream` (src/generate-dataset.js) and
`DeleteReadableStream._read` (the deletion-streams module), with an explicit
iteration bound `fuel` so that the recursion is structural: while
`index < array.length`, push `array.slice(index, index + chunkSize)` and
advance `index += chunkSize`. Each iteration consumes at least one element
when `chunkSize ≥ 1`, so `fuel = array.length` iterations always suffice. -/
def sliceChunksFuel (chunkSize : Nat) : Nat → List α → List (List α)
  | _, [] => []
  | 0, _ :: _ => []
  | fuel + 1, x :: xs =>
    match chunkSize with
    | 0 => []
    | b + 1 =>
      ((x :: xs).take (b + 1)) :: sliceChunksFuel (b + 1) fuel ((x :: xs).drop (b + 1))

/-- Embeds the `arrayToStream` / `DeleteReadableStream._read` loop: emit
`array.slice(index, index + chunkSize)` for `index = 0, chunkSize, 2·chunkSize, …`
while `index < array.length`, then end the stream with `push(null)`.
With `chunkSize = 0` the source loop would never terminate (the index never
advances); the model returns `[]` in that unreachable configuration — the
scripts always run it with a positive chunk size. -/
def sliceChunks (chunkSize : Nat) (l : List α) : List (List α) :=
  sliceChunksFuel chunkSize l.length l

/-- The `ProductStream._read` loop with an explicit iteration bound `fuel`:
each iteration emits at least one product when `chunkSize ≥ 1`, so
`fuel = catalogSize` iterations always suffice. -/
def productStreamSizesFuel (chunkSize : Nat) : Nat → Nat → List Nat
  | _, 0 => []
  | 0, _ + 1 => []
  | fuel + 1, r + 1 =>
    match chunkSize with
    | 0 => []
    | b + 1 =>
      min (b + 1) (r + 1) :: productStreamSizesFuel (b + 1) fuel ((r + 1) - min (b + 1) (r + 1))

/-- Embeds `ProductStream._read` (src/unnamed/part_001): while
`index < catalogSize`, emit a chunk of `size = min(chunkSize, catalogSize - index)`
freshly generated products and advance `index += size`. The state is tracked
through the remaining count `catalogSize - index`, and only the chunk sizes are
recorded (each chunk's contents are `size` freshly generated products).
With `chunkSize = 0` the source loop would never terminate; the model returns
`[]` in that unreachable configuration (the constructor defaults it to 1000). -/
def productStreamSizes (chunkSize catalogSize : Nat) : List Nat :=
  productStreamSizesFuel chunkSize catalogSize catalogSize

/-- The chunks issued by `DeleteReadableStream` (the deletion-streams module)
for a list of identifiers to delete: the same `slice / index += chunkSize`
loop as `arrayToStream`. In the source the chunk size is the free identifier
`CHUNK_SIZE` (unbound in that module; bound to 1000 in `update-catalog.js`),
so it is kept as a parameter here. -/
def deleteReadableStreamChunks (ids : List Nat) (chunkSize : Nat) : List (List Nat) :=
  sliceChunks chunkSize ids

/-- Embeds `productEvent` (src/generate-dataset.js): the categorical
probability weights for the per-record update decision. -/
structure ProductEvent where
  pDelete : ℚ
  pUpdate : ℚ
  pAdd : ℚ

/-- The `productEvent` constant of the source: 10% delete, 10% update,
20% add-new (the remaining 60% leaves the record unchanged). -/
def productEvent : ProductEvent := ⟨10, 10, 20⟩

/-- Embeds `generateProduct(index, createdAt)` (src/generate-dataset.js):
`new Product(uuidv4(), Product_<index>, generatePrice(), createdAt, createdAt)`.
The fresh uuid and the random price are passed in as `freshId` and `price`. -/
def generateProduct (freshId : Nat) (index : Nat) (price : ℚ) (createdAt : Nat) : Product :=
  ⟨freshId, "Product_" ++ toString index, price, createdAt, createdAt⟩

/-- Embeds `generateUpdate(product, index, catalogSize)` (src/generate-dataset.js):
the draw `Math.random() * 100` is the parameter `rand`; the fresh uuid, random
price and current time of the branches are the parameters `freshId`,
`newPrice` and `now`. -/
def generateUpdate (rand : ℚ) (freshId : Nat) (newPrice : ℚ) (now : Nat)
    (product : Product) (index catalogSize : Nat) : Option Product :=
  if rand < productEvent.pDelete then
    none
  else if rand < productEvent.pDelete + productEvent.pUpdate then
    some ⟨product._id, "Product_" ++ toString (index + catalogSize), newPrice,
      product.createdAt, now⟩
  else if rand < productEvent.pDelete + productEvent.pUpdate + productEvent.pAdd then
    some (generateProduct freshId (index + catalogSize) newPrice now)
  else
    some product

/-- Embeds `writeProductUpdateToCsv(product, updatedProduct)`
(src/generate-dataset.js). A written CSV data line is modelled as the record
it serializes (`Product.toCsv` lives in the absent `product.js`; the spec pins
it to one comma-separated line per record). Returns the list of appended lines
and the per-record metric. -/
def writeProductUpdateToCsv (product : Product) (updatedProduct : Option Product) :
    List Product × Metrics :=
  match updatedProduct with
  | none => ([], Metrics.deleted)
  | some u =>
    if u._id = product._id then
      ([u], if u.updatedAt ≠ u.createdAt then Metrics.updated else Metrics.zero)
    else
      ([product, u], Metrics.added)

/-- The system state touched by `clearExistingData` (src/generate-dataset.js):
the server's databases as an association list from database name to the
identifiers stored in its `Products` collection, and the output CSV file as
`none` (absent) or `some lines`. -/
structure SysState where
  databases : List (String × List Nat)
  csvFile : Option (List String)

/-- The database names, as returned by the listDatabases admin command. -/
def listDatabases (s : SysState) : List String :=
  s.databases.map Prod.fst

/-- Embeds `db.dropDatabase()`: removes the script's database entirely. -/
def dropDatabase (s : SysState) : SysState :=
  { s with databases := s.databases.filter (fun d => d.1 ≠ DATABASE_NAME) }

/-- Embeds `clearExistingData(db)` (src/generate-dataset.js): drop the product
database when `listDatabases` contains its name, then remove the output CSV
file when `fs.existsSync` reports it present. -/
def clearExistingData (s : SysState) : SysState :=
  let s1 := if DATABASE_NAME ∈ listDatabases s then dropDatabase s else s
  if s1.csvFile.isSome then { s1 with csvFile := none } else s1

/-- The store and process interactions observable during one
`updateDataset` run (src/update-catalog.js), in the order the sequential
event-loop performs them:
`count` — the `Products.count()` read that sizes the progress log (it only
feeds `logProgress`, never the reconciliation data);
`snapshot` — the `find({}, {projection: {_id: 1}})` identifier read;
`upsert c` / `upsertFailed c` — one `bulkWrite` call on chunk `c` succeeding /
rejecting (a rejected call, awaited inside a stream event handler, is never
propagated to the returned promise);
`resolve` — the promise returned by `updateDataset` resolves (wired to the CSV
stream's `end` event);
`deleteBatch c` / `deleteFailed c` — one `deleteMany` call on chunk `c`
succeeding / rejecting (a rejection errors the writable stream, so no later
chunk is written);
`summary` — `logMetrics` runs from the delete stream's `finish` callback. -/
inductive Event
  | count
  | snapshot
  | upsert (ids : List Nat)
  | upsertFailed (ids : List Nat)
  | resolve
  | deleteBatch (ids : List Nat)
  | deleteFailed (ids : List Nat)
  | summary
  deriving DecidableEq, Repr

/-- Holds exactly on the two upsert-call events. -/
def isUpsertEvent : Event → Bool
  | .upsert _ => true
  | .upsertFailed _ => true
  | _ => false

/-- Holds exactly on the two delete-call events. -/
def isDeleteEvent : Event → Bool
  | .deleteBatch _ => true
  | .deleteFailed _ => true
  | _ => false

/-- Embeds the ordered MongoDB `bulkWrite` of `{updateOne, filter: {_id},
update: {$set}, upsert: true}` operations built by `processChunk`: each
operation matches its record by identifier, replacing the stored record on a
match and inserting it otherwise. A matched record counts into
`modifiedCount` (the run model does not track record contents, so every match
is counted as modified) and an inserted one into `upsertedCount`. Returns the
store's identifier list after the call and the reported counts. -/
def bulkWrite (store chunk : List Nat) : List Nat × UpdateResult :=
  chunk.foldl
    (fun acc id =>
      if id ∈ acc.1 then
        (acc.1, { acc.2 with modifiedCount := acc.2.modifiedCount + 1 })
      else
        (acc.1 ++ [id], { acc.2 with upsertedCount := acc.2.upsertedCount + 1 }))
    (store, ⟨0, 0⟩)

/-- Embeds lodash `_.difference(xs, ys)`: the members of `xs` not present in
`ys`, in their original order. -/
def difference (xs ys : List Nat) : List Nat :=
  xs.filter (fun x => x ∉ ys)

/-- The mutable state of one `updateDataset` run: the `products` row buffer,
the `rowCount` counter, the store contents, the metrics accumulator, and the
trace of events so far. `chunkIdx` numbers the store calls so that the failure
scenarios `failUpsert` / `failDelete` can be expressed per call. -/
structure RunState where
  products : List Nat
  rowCount : Nat
  chunkIdx : Nat
  store : List Nat
  metrics : Metrics
  trace : List Event
  deriving Repr

/-- Embeds `processChunk` (src/update-catalog.js): skip the store call when the
chunk is empty (`bulkOps.length > 0` guard), otherwise issue one `bulkWrite`
and feed its reported counts to `updateMetrics`. `failUpsert k = true` makes
the `k`-th upsert call reject; the rejection aborts the caller at its `await`,
leaving store, metrics and buffer untouched. The Bool result says whether the
call succeeded. -/
def processChunk (failUpsert : Nat → Bool) (st : RunState) (chunk : List Nat) :
    Bool × RunState :=
  if chunk.length = 0 then (true, st)
  else if failUpsert st.chunkIdx then
    (false, { st with
      chunkIdx := st.chunkIdx + 1,
      trace := st.trace ++ [Event.upsertFailed chunk] })
  else
    let wr := bulkWrite st.store chunk
    (true, { st with
      store := wr.1,
      metrics := updateMetrics st.metrics wr.2,
      chunkIdx := st.chunkIdx + 1,
      trace := st.trace ++ [Event.upsert chunk] })

/-- Embeds the CSV `data` handler of `updateDataset`: push the row's identifier,
bump `rowCount`, and when the buffer reaches `CHUNK_SIZE` await
`processChunk(products)` and reset the buffer. When that call rejects, the
handler aborts before `products = []`, so the buffer keeps growing past
`CHUNK_SIZE` and is flushed again only by the `end` handler. -/
def handleRow (failUpsert : Nat → Bool) (st : RunState) (id : Nat) : RunState :=
  let st1 := { st with products := st.products ++ [id], rowCount := st.rowCount + 1 }
  if st1.products.length = CHUNK_SIZE then
    let r := processChunk failUpsert st1 st1.products
    if r.1 then { r.2 with products := [] } else r.2
  else st1

/-- Embeds `DeleteWritableStream._write` (the deletion-streams module) driven
over the chunks produced by `DeleteReadableStream`: each chunk issues one
`deleteMany({_id: {$in: chunk}})`; a reported non-zero `deletedCount` is added
to the metrics (JS truthiness test). `failDelete k = true` makes the `k`-th
delete call reject: `callback(error)` errors the writable stream, so no later
chunk is written and `finish` never fires. The Bool result says whether all
chunks were written. -/
def deleteChunksRun (failDelete : Nat → Bool) (k : Nat) (st : RunState) :
    List (List Nat) → Bool × RunState
  | [] => (true, st)
  | c :: cs =>
    if failDelete k then
      (false, { st with trace := st.trace ++ [Event.deleteFailed c] })
    else
      let deletedCount := (st.store.filter (fun x => x ∈ c)).length
      let st1 := { st with
        store := st.store.filter (fun x => x ∉ c),
        metrics :=
          if deletedCount ≠ 0 then
            { st.metrics with deletedCount := st.metrics.deletedCount + deletedCount }
          else st.metrics,
        trace := st.trace ++ [Event.deleteBatch c] }
      deleteChunksRun failDelete (k + 1) st1 cs

/-- The tail of the `end` handler of `updateDataset` once the end flush has
succeeded, together with the resolution of the returned promise: read
`productIds` from the `products` buffer as it stands after the flush (the
source resets the buffer after every `data`-phase chunk but never after the
`end` flush, so only rows still in the buffer are seen here), compute
`deletedProductIds = _.difference(dbIds, productIds)`, resolve the promise
(wired to the same `end` event, hence before any delete chunk is written),
then pipe the deletion set through the delete streams in `CHUNK_SIZE` slices,
emitting the metrics summary from the `finish` callback. Returns the final
state and `deletedProductIds`. -/
def deletePipeline (failDelete : Nat → Bool) (dbIds : List Nat) (st : RunState) :
    RunState × List Nat :=
  let productIds := st.products
  let deletedProductIds := difference dbIds productIds
  let st1 := { st with trace := st.trace ++ [Event.resolve] }
  let dr := deleteChunksRun failDelete 0 st1 (sliceChunks CHUNK_SIZE deletedProductIds)
  let st2 := if dr.1 then { dr.2 with trace := dr.2.trace ++ [Event.summary] } else dr.2
  (st2, deletedProductIds)

/-- Embeds the CSV `end` handler of `updateDataset`: flush the remaining
buffer with `processChunk` when it is non-empty, then continue with
`deletePipeline`. When the end flush rejects, the rejection aborts the rest
of the handler — no deletion set is computed and no delete chunk is written —
but the promise still resolves (its `end` listener is independent). -/
def endPhase (failUpsert failDelete : Nat → Bool) (dbIds : List Nat) (st : RunState) :
    RunState × List Nat :=
  let r := if st.products.length > 0 then processChunk failUpsert st st.products else (true, st)
  if r.1 then
    deletePipeline failDelete dbIds r.2
  else
    ({ r.2 with trace := r.2.trace ++ [Event.resolve] }, [])

/-- The observable outcome of one `updateDataset` run. `promiseResolved`
records how the promise returned by `updateDataset` settled: it is wired only
to the CSV stream's `end` (resolve) and `error` (reject) events, so once the
CSV file has been read to its end — the situation this model describes — it
resolves, whatever the store calls did. -/
structure RunOutput where
  trace : List Event
  store : List Nat
  metrics : Metrics
  deletedProductIds : List Nat
  promiseResolved : Bool
  deriving Repr

/-- Embeds `updateDataset(db)` (src/update-catalog.js) as one sequential run,
with the two reads that precede the CSV stream in their source order: first
the `Products.count()` call sizing the progress log (`dbCatalogSize`), then
the store identifier snapshot `dbIds` — both before the CSV stream is
created, hence before any upsert. Afterwards every CSV row goes through the
`data` handler, then the `end` handler and the delete pipeline run.
`storeInit` is the store's identifier list when the run starts and `rows`
the identifiers of the CSV's data rows in file order. -/
def updateDataset (failUpsert failDelete : Nat → Bool) (storeInit rows : List Nat) :
    RunOutput :=
  let dbIds := storeInit
  let st0 : RunState := ⟨[], 0, 0, storeInit, Metrics.zero, [Event.count, Event.snapshot]⟩
  let st1 := rows.foldl (handleRow failUpsert) st0
  let r := endPhase failUpsert failDelete dbIds st1
  ⟨r.1.trace, r.1.store, r.1.metrics, r.2, true⟩

/-- The ordering property claimed for a run's trace: every upsert call occurs
strictly before the identifier-set snapshot is taken. -/
def upsertsBeforeSnapshot (t : List Event) : Prop :=
  ∀ i j e, t.get? i = some e → isUpsertEvent e = true →
    t.get? j = some Event.snapshot → i < j

/-! ### Chunk-producer lemmas -/

lemma dropLast_cons_of_ne_nil (a : α) (l : List α) (h : l ≠ []) :
    (a :: l).dropLast = a :: l.dropLast := by
  cases l with
  | nil => exact absurd rfl h
  | cons y ys => exact List.dropLast_cons₂

lemma getLast_cons_of_ne_nil (a : α) (l : List α) (h : l ≠ []) :
    (a :: l).getLast? = l.getLast? := by
  cases l with
  | nil => exact absurd rfl h
  | cons y ys => exact List.getLast?_cons_cons

lemma sliceChunksFuel_join (b : Nat) :
    ∀ (fuel : Nat) (l : List α), l.length ≤ fuel →
      (sliceChunksFuel (b + 1) fuel l).flatten = l := by
  intro fuel
  induction fuel with
  | zero =>
    intro l hl
    cases l with
    | nil => simp [sliceChunksFuel]
    | cons x xs => simp at hl
  | succ fuel ih =>
    intro l hl
    cases l with
    | nil => simp [sliceChunksFuel]
    | cons x xs =>
      have hdrop : ((x :: xs).drop (b + 1)).length ≤ fuel := by
        simp only [List.length_drop, List.length_cons]
        simp only [List.length_cons] at hl
        omega
      simp only [sliceChunksFuel, List.flatten_cons]
      rw [ih _ hdrop, List.take_append_drop]

lemma sliceChunksFuel_map_length (b : Nat) :
    ∀ (fuel : Nat) (l : List α), l.length ≤ fuel →
      (sliceChunksFuel (b + 1) fuel l).map List.length =
        productStreamSizesFuel (b + 1) fuel l.length := by
  intro fuel
  induction fuel with
  | zero =>
    intro l hl
    cases l with
    | nil => simp [sliceChunksFuel, productStreamSizesFuel]
    | cons x xs => simp at hl
  | succ fuel ih =>
    intro l hl
    cases l with
    | nil => simp [sliceChunksFuel, productStreamSizesFuel]
    | cons x xs =>
      have hdrop : ((x :: xs).drop (b + 1)).length ≤ fuel := by
        simp only [List.length_drop, List.length_cons]
        simp only [List.length_cons] at hl
        omega
      simp only [sliceChunksFuel, productStreamSizesFuel, List.map_cons,
        List.length_cons]
      congr 1
      · rw [List.length_take]
        simp only [List.length_cons]
      · rw [ih _ hdrop]
        simp only [List.length_drop, List.length_cons]
        congr 1
        omega

lemma productStreamSizesFuel_sum (b : Nat) :
    ∀ (fuel r : Nat), r ≤ fuel →
      (productStreamSizesFuel (b + 1) fuel r).sum = r := by
  intro fuel
  induction fuel with
  | zero =>
    intro r hr
    interval_cases r
    simp [productStreamSizesFuel]
  | succ fuel ih =>
    intro r hr
    cases r with
    | zero => simp [productStreamSizesFuel]
    | succ r =>
      simp only [productStreamSizesFuel, List.sum_cons]
      rw [ih _ (by omega)]
      omega

lemma productStreamSizesFuel_length (b : Nat) :
    ∀ (fuel r : Nat), r ≤ fuel →
      (productStreamSizesFuel (b + 1) fuel r).length = (r + b) / (b + 1) := by
  intro fuel
  induction fuel with
  | zero =>
    intro r hr
    interval_cases r
    have h0 : b / (b + 1) = 0 := Nat.div_eq_of_lt (by omega)
    simp [productStreamSizesFuel, h0]
  | succ fuel ih =>
    intro r hr
    cases r with
    | zero =>
      have h0 : b / (b + 1) = 0 := Nat.div_eq_of_lt (by omega)
      simp [productStreamSizesFuel, h0]
    | succ r =>
      simp only [productStreamSizesFuel, List.length_cons]
      rw [ih _ (by omega)]
      by_cases hle : r + 1 ≤ b + 1
      · have hmin : min (b + 1) (r + 1) = r + 1 := by omega
        rw [hmin]
        simp only [Nat.sub_self]
        have h0 : (0 + b) / (b + 1) = 0 := Nat.div_eq_of_lt (by omega)
        rw [h0]
        have h1 : (r + 1 + b) / (b + 1) = 1 :=
          Nat.div_eq_of_lt_le (by omega) (by omega)
        omega
      · have hmin : min (b + 1) (r + 1) = b + 1 := by omega
        rw [hmin]
        have harg : r + 1 - (b + 1) = r - b := by omega
        rw [harg]
        have hsplit : r + 1 + b = (r - b + b) + (b + 1) := by omega
        rw [hsplit, Nat.add_div_right _ (by omega : 0 < b + 1)]

lemma productStreamSizesFuel_ne_nil (b fuel r : Nat) :
    productStreamSizesFuel (b + 1) (fuel + 1) (r + 1) ≠ [] := by
  simp [productStreamSizesFuel]

lemma productStreamSizesFuel_dropLast (b : Nat) :
    ∀ (fuel r : Nat), r ≤ fuel →
      ∀ s ∈ (productStreamSizesFuel (b + 1) fuel r).dropLast, s = b + 1 := by
  intro fuel
  induction fuel with
  | zero =>
    intro r hr
    interval_cases r
    simp [productStreamSizesFuel]
  | succ fuel ih =>
    intro r hr
    cases r with
    | zero => simp [productStreamSizesFuel]
    | succ r =>
      by_cases hle : r + 1 ≤ b + 1
      · have hmin : min (b + 1) (r + 1) = r + 1 := by omega
        simp [productStreamSizesFuel, hmin]
      · have hmin : min (b + 1) (r + 1) = b + 1 := by omega
        have harg : r + 1 - (b + 1) = (r - b - 1) + 1 := by omega
        have hfuel : (r - b - 1) + 1 ≤ fuel := by omega
        simp only [productStreamSizesFuel, hmin, harg]
        cases fuel with
        | zero => omega
        | succ fuel =>
          rw [dropLast_cons_of_ne_nil _ _ (productStreamSizesFuel_ne_nil b fuel (r - b - 1))]
          intro s hs
          rcases List.mem_cons.mp hs with h | h
          · exact h
          · exact ih _ hfuel s h

lemma productStreamSizesFuel_getLast (b : Nat) :
    ∀ (fuel r : Nat), 1 ≤ r → r ≤ fuel →
      (productStreamSizesFuel (b + 1) fuel r).getLast? =
        some (if r % (b + 1) = 0 then b + 1 else r % (b + 1)) := by
  intro fuel
  induction fuel with
  | zero =>
    intro r h1 hr
    omega
  | succ fuel ih =>
    intro r h1 hr
    cases r with
    | zero => omega
    | succ r =>
      by_cases hle : r + 1 ≤ b + 1
      · have hmin : min (b + 1) (r + 1) = r + 1 := by omega
        simp only [productStreamSizesFuel, hmin, Nat.sub_self]
        by_cases heq : r + 1 = b + 1
        · have hm : (r + 1) % (b + 1) = 0 := by rw [heq]; exact Nat.mod_self (b + 1)
          cases fuel <;> simp [productStreamSizesFuel, hm, heq]
        · have hm : (r + 1) % (b + 1) = r + 1 := Nat.mod_eq_of_lt (by omega)
          have hne : ¬ (r + 1) % (b + 1) = 0 := by rw [hm]; omega
          cases fuel <;> simp [productStreamSizesFuel, hm, hne]
      · have hmin : min (b + 1) (r + 1) = b + 1 := by omega
        have harg : r + 1 - (b + 1) = (r - b - 1) + 1 := by omega
        have hfuel : (r - b - 1) + 1 ≤ fuel := by omega
        simp only [productStreamSizesFuel, hmin, harg]
        cases fuel with
        | zero => omega
        | succ fuel =>
          rw [getLast_cons_of_ne_nil _ _ (productStreamSizesFuel_ne_nil b fuel (r - b - 1))]
          have hmod : ((r - b - 1) + 1) % (b + 1) = (r + 1) % (b + 1) := by
            have hsplit : r + 1 = ((r - b - 1) + 1) + (b + 1) := by omega
            rw [hsplit, Nat.add_mod_right]
          rw [ih _ (by omega) hfuel, hmod]

lemma sliceChunksFuel_nil_not_mem (b : Nat) :
    ∀ (fuel : Nat) (l : List α), [] ∉ sliceChunksFuel (b + 1) fuel l := by
  intro fuel
  induction fuel with
  | zero =>
    intro l
    cases l <;> simp [sliceChunksFuel]
  | succ fuel ih =>
    intro l
    cases l with
    | nil => simp [sliceChunksFuel]
    | cons x xs =>
      simp only [sliceChunksFuel, List.mem_cons, not_or]
      exact ⟨by simp, ih _⟩

/-! ### Claim C4: the chunked sequence producers -/

/-- C4: for all `N ≥ 0` and `B ≥ 1`, both chunked sequence producers
(`arrayToStream` / `DeleteReadableStream._read`, modelled by `sliceChunks`,
and `ProductStream._read`, modelled by `productStreamSizes`) emit batches in
strictly increasing index order (their concatenation reproduces the input in
order), every batch except possibly the last has exactly `B` elements, the
last batch has `N mod B` elements (or `B` when `B` divides `N`), exactly
`ceil(N/B)` batches are emitted, sizes sum to `N`, and `N = 0` yields zero
batches rather than one empty batch. -/
theorem chunked_producer_spec {α : Type} (l : List α) (N B : Nat)
    (hB : 1 ≤ B) (hN : l.length = N) :
    (sliceChunks B l).flatten = l ∧
    (sliceChunks B l).map List.length = productStreamSizes B N ∧
    (productStreamSizes B N).sum = N ∧
    (productStreamSizes B N).length = (N + B - 1) / B ∧
    (∀ s ∈ (productStreamSizes B N).dropLast, s = B) ∧
    ((productStreamSizes B N).getLast? =
      if N = 0 then none else some (if N % B = 0 then B else N % B)) ∧
    (N = 0 → productStreamSizes B N = []) := by
  obtain ⟨b, rfl⟩ : ∃ b, B = b + 1 := ⟨B - 1, by omega⟩
  subst hN
  unfold sliceChunks productStreamSizes
  refine ⟨sliceChunksFuel_join b _ l le_rfl,
    sliceChunksFuel_map_length b _ l le_rfl,
    productStreamSizesFuel_sum b _ _ le_rfl, ?_,
    productStreamSizesFuel_dropLast b _ _ le_rfl, ?_, ?_⟩
  · rw [productStreamSizesFuel_length b _ _ le_rfl]
    congr 1
  · by_cases h0 : l.length = 0
    · rw [h0]
      simp [productStreamSizesFuel]
    · rw [productStreamSizesFuel_getLast b _ _ (by omega) le_rfl, if_neg h0]
  · intro h
    rw [h]
    rfl

/-- Witness for C4 at `l = [10, 20, 30]`, `N = 3`, `B = 2`. -/
theorem chunked_producer_spec_witness :
    (sliceChunks 2 [10, 20, 30]).flatten = [10, 20, 30] ∧
    (productStreamSizes 2 3).sum = 3 ∧
    (productStreamSizes 2 3).length = 2 :=
  ⟨(chunked_producer_spec [10, 20, 30] 3 2 (by decide) (by decide)).1,
   (chunked_producer_spec [10, 20, 30] 3 2 (by decide) (by decide)).2.2.1,
   (chunked_producer_spec [10, 20, 30] 3 2 (by decide) (by decide)).2.2.2.1⟩

/-! ### Claim C6: no empty delete chunk -/

/-- C6: for every deletion set (empty or not) and positive chunk size, the
delete readable stream never emits a chunk with zero identifiers, so no
batched delete call is ever issued on an empty identifier list. -/
theorem deleteStream_chunks_nonempty (ids : List Nat) (chunkSize : Nat)
    (h : 1 ≤ chunkSize) :
    [] ∉ deleteReadableStreamChunks ids chunkSize := by
  obtain ⟨b, rfl⟩ : ∃ b, chunkSize = b + 1 := ⟨chunkSize - 1, by omega⟩
  exact sliceChunksFuel_nil_not_mem b ids.length ids

/-- Witness for C6 at `ids = [3, 4, 5]` and the engine's `CHUNK_SIZE`. -/
theorem deleteStream_chunks_nonempty_witness :
    [] ∉ deleteReadableStreamChunks [3, 4, 5] CHUNK_SIZE :=
  deleteStream_chunks_nonempty [3, 4, 5] CHUNK_SIZE (by decide)

/-! ### Claim C5: metrics advance by the store-reported counts -/

lemma updateMetrics_counts (m : Metrics) (r : UpdateResult) :
    (updateMetrics m r).addedCount = m.addedCount + r.upsertedCount ∧
    (updateMetrics m r).updatedCount = m.updatedCount + r.modifiedCount ∧
    (updateMetrics m r).deletedCount = m.deletedCount := by
  by_cases h1 : r.modifiedCount = 0 <;> by_cases h2 : r.upsertedCount = 0 <;>
    simp [updateMetrics, h1, h2]

lemma foldl_updateMetrics_counts (rs : List UpdateResult) :
    ∀ m : Metrics,
      (rs.foldl updateMetrics m).addedCount =
        m.addedCount + (rs.map UpdateResult.upsertedCount).sum ∧
      (rs.foldl updateMetrics m).updatedCount =
        m.updatedCount + (rs.map UpdateResult.modifiedCount).sum := by
  induction rs with
  | nil => intro m; simp
  | cons r rs ih =>
    intro m
    simp only [List.foldl_cons, List.map_cons, List.sum_cons]
    obtain ⟨ha, hu⟩ := ih (updateMetrics m r)
    obtain ⟨ha1, hu1, _⟩ := updateMetrics_counts m r
    rw [ha, hu, ha1, hu1]
    omega

/-- C5: every upsert batch advances the metrics accumulator exactly by the
store-reported counts of that call — `updatedCount` by the reported modified
count and `addedCount` by the reported upserted count, `deletedCount`
untouched — and after any sequence of batches the accumulated `addedCount`
and `updatedCount` equal the sums of the per-call reported counts. -/
theorem updateMetrics_spec :
    (∀ (m : Metrics) (r : UpdateResult),
      (updateMetrics m r).addedCount = m.addedCount + r.upsertedCount ∧
      (updateMetrics m r).updatedCount = m.updatedCount + r.modifiedCount ∧
      (updateMetrics m r).deletedCount = m.deletedCount) ∧
    (∀ rs : List UpdateResult,
      (rs.foldl updateMetrics Metrics.zero).addedCount =
        (rs.map UpdateResult.upsertedCount).sum ∧
      (rs.foldl updateMetrics Metrics.zero).updatedCount =
        (rs.map UpdateResult.modifiedCount).sum) := by
  refine ⟨updateMetrics_counts, ?_⟩
  intro rs
  obtain ⟨ha, hu⟩ := foldl_updateMetrics_counts rs Metrics.zero
  rw [ha, hu]
  have hz1 : Metrics.zero.addedCount = 0 := rfl
  have hz2 : Metrics.zero.updatedCount = 0 := rfl
  rw [hz1, hz2]
  omega

/-! ### Claim C7: CSV lines and metric per generated record -/

/-- C7: per baseline record the generator writes 0, 1 or 2 CSV data lines —
0 when the decision is a deletion, 1 when the decision kept the record's
identity (update or unchanged), 2 (the original line plus the new record's
line) when a new record is added — and the returned metric is `deleted` for a
deletion, `added` for an add-new, `updated` exactly when the written record's
`updatedAt` differs from its `createdAt`, and `zero` when they are equal. -/
theorem writeProductUpdateToCsv_spec (p u : Product) :
    (writeProductUpdateToCsv p none = ([], Metrics.deleted)) ∧
    (u._id = p._id →
      (writeProductUpdateToCsv p (some u)).1 = [u] ∧
      (u.updatedAt ≠ u.createdAt →
        (writeProductUpdateToCsv p (some u)).2 = Metrics.updated) ∧
      (u.updatedAt = u.createdAt →
        (writeProductUpdateToCsv p (some u)).2 = Metrics.zero)) ∧
    (u._id ≠ p._id →
      writeProductUpdateToCsv p (some u) = ([p, u], Metrics.added)) := by
  refine ⟨rfl, ?_, ?_⟩
  · intro hid
    refine ⟨by simp [writeProductUpdateToCsv, hid], ?_, ?_⟩
    · intro hne
      simp [writeProductUpdateToCsv, hid, hne]
    · intro heq
      simp [writeProductUpdateToCsv, hid, heq]
  · intro hid
    simp [writeProductUpdateToCsv, hid]

/-- Witness for C7: an update decision (same id, changed timestamp) counts as
`updated` and writes one line; an add-new decision (different id) writes the
original line plus the new line and counts as `added`. -/
theorem writeProductUpdateToCsv_spec_witness :
    (writeProductUpdateToCsv ⟨1, "a", 5, 3, 3⟩ (some ⟨1, "b", 6, 3, 7⟩)).2 =
      Metrics.updated ∧
    writeProductUpdateToCsv ⟨1, "a", 5, 3, 3⟩ (some ⟨2, "c", 6, 9, 9⟩) =
      ([⟨1, "a", 5, 3, 3⟩, ⟨2, "c", 6, 9, 9⟩], Metrics.added) :=
  ⟨((writeProductUpdateToCsv_spec ⟨1, "a", 5, 3, 3⟩ ⟨1, "b", 6, 3, 7⟩).2.1
      rfl).2.1 (by decide),
   (writeProductUpdateToCsv_spec ⟨1, "a", 5, 3, 3⟩ ⟨2, "c", 6, 9, 9⟩).2.2
      (by decide)⟩

/-! ### Claim C8: the categorical update decision -/

/-- C8: the per-record decision function maps the uniform draw
`rand ∈ [0, 100)` exactly to the specified categories: `rand < 10` deletes
(`none`), `10 ≤ rand < 20` yields an updated record keeping the id and
`createdAt` but stamped with the new `updatedAt`, `20 ≤ rand < 40` yields a
brand-new record carrying the fresh identifier, and `40 ≤ rand` returns the
original record unchanged — the 10% / 10% / 20% / 60% split. -/
theorem generateUpdate_spec (rand : ℚ) (freshId : Nat) (newPrice : ℚ)
    (now : Nat) (p : Product) (index catalogSize : Nat) :
    (rand < 10 →
      generateUpdate rand freshId newPrice now p index catalogSize = none) ∧
    (10 ≤ rand → rand < 20 →
      generateUpdate rand freshId newPrice now p index catalogSize =
        some ⟨p._id, "Product_" ++ toString (index + catalogSize), newPrice,
          p.createdAt, now⟩) ∧
    (20 ≤ rand → rand < 40 →
      generateUpdate rand freshId newPrice now p index catalogSize =
          some (generateProduct freshId (index + catalogSize) newPrice now) ∧
        (generateProduct freshId (index + catalogSize) newPrice now)._id =
          freshId ∧
        (generateProduct freshId (index + catalogSize) newPrice now).createdAt =
          now) ∧
    (40 ≤ rand →
      generateUpdate rand freshId newPrice now p index catalogSize = some p) := by
  refine ⟨?_, ?_, ?_, ?_⟩
  · intro h
    simp only [generateUpdate, productEvent]
    rw [if_pos h]
  · intro h1 h2
    simp only [generateUpdate, productEvent]
    rw [if_neg (by linarith), if_pos (by linarith)]
  · intro h1 h2
    refine ⟨?_, rfl, rfl⟩
    simp only [generateUpdate, productEvent]
    rw [if_neg (by linarith), if_neg (by linarith), if_pos (by linarith)]
  · intro h
    simp only [generateUpdate, productEvent]
    rw [if_neg (by linarith), if_neg (by linarith), if_neg (by linarith)]

/-- Witness for C8: a draw of 15 falls in the update band and keeps the
identity; a draw of 55 falls in the unchanged band. -/
theorem generateUpdate_spec_witness :
    generateUpdate 15 7 2 9 ⟨1, "x", 3, 4, 4⟩ 0 5 =
      some ⟨1, "Product_" ++ toString 5, 2, 4, 9⟩ ∧
    generateUpdate 55 7 2 9 ⟨1, "x", 3, 4, 4⟩ 0 5 = some ⟨1, "x", 3, 4, 4⟩ :=
  ⟨(generateUpdate_spec 15 7 2 9 ⟨1, "x", 3, 4, 4⟩ 0 5).2.1
      (by norm_num) (by norm_num),
   (generateUpdate_spec 55 7 2 9 ⟨1, "x", 3, 4, 4⟩ 0 5).2.2.2 (by norm_num)⟩

/-! ### Claim C10: generation always starts from a clean slate -/

lemma dropDatabase_not_listed (s : SysState) :
    DATABASE_NAME ∉ listDatabases (dropDatabase s) := by
  simp only [dropDatabase, listDatabases, List.mem_map, List.mem_filter]
  rintro ⟨d, ⟨_, hd⟩, hfst⟩
  simp only [decide_eq_true_eq] at hd
  exact hd hfst

/-- C10: after `clearExistingData` — which `main` awaits before any record is
inserted — the product database is no longer listed on the server (so the
store starts empty) and the output CSV file is absent, whatever the prior
state was. -/
theorem clearExistingData_spec (s : SysState) :
    DATABASE_NAME ∉ listDatabases (clearExistingData s) ∧
    (clearExistingData s).csvFile = none := by
  unfold clearExistingData
  by_cases h : DATABASE_NAME ∈ listDatabases s
  · rw [if_pos h]
    by_cases hc : (dropDatabase s).csvFile.isSome
    · rw [if_pos hc]
      exact ⟨dropDatabase_not_listed s, rfl⟩
    · rw [if_neg hc]
      exact ⟨dropDatabase_not_listed s,
        Option.not_isSome_iff_eq_none.mp hc⟩
  · rw [if_neg h]
    by_cases hc : s.csvFile.isSome
    · rw [if_pos hc]
      exact ⟨h, rfl⟩
    · rw [if_neg hc]
      exact ⟨h, Option.not_isSome_iff_eq_none.mp hc⟩

/-! ### Trace-shape lemmas for the run model -/

lemma isUpsertEvent_classify (e : Event) (h : isUpsertEvent e = true) :
    isDeleteEvent e = false ∧ e ≠ Event.summary ∧ e ≠ Event.snapshot := by
  cases e <;> simp_all [isUpsertEvent, isDeleteEvent]

lemma isDeleteEvent_ne_snapshot (e : Event) (h : isDeleteEvent e = true) :
    e ≠ Event.snapshot := by
  cases e <;> simp_all [isDeleteEvent]

lemma processChunk_trace (f : Nat → Bool) (st : RunState) (c : List Nat) :
    ∃ d, ((processChunk f st c).2).trace = st.trace ++ d ∧
      ∀ e ∈ d, isUpsertEvent e = true := by
  unfold processChunk
  split_ifs with h1 h2
  · exact ⟨[], by simp, by simp⟩
  · exact ⟨[Event.upsertFailed c], rfl, by simp [isUpsertEvent]⟩
  · exact ⟨[Event.upsert c], rfl, by simp [isUpsertEvent]⟩

lemma handleRow_trace (f : Nat → Bool) (st : RunState) (id : Nat) :
    ∃ d, (handleRow f st id).trace = st.trace ++ d ∧
      ∀ e ∈ d, isUpsertEvent e = true := by
  simp only [handleRow]
  split_ifs with h1 h2
  · obtain ⟨d, hd, ha⟩ := processChunk_trace f
      { st with products := st.products ++ [id], rowCount := st.rowCount + 1 }
      (st.products ++ [id])
    exact ⟨d, hd, ha⟩
  · obtain ⟨d, hd, ha⟩ := processChunk_trace f
      { st with products := st.products ++ [id], rowCount := st.rowCount + 1 }
      (st.products ++ [id])
    exact ⟨d, hd, ha⟩
  · exact ⟨[], by simp, by simp⟩

lemma foldl_handleRow_trace (f : Nat → Bool) :
    ∀ (rows : List Nat) (st : RunState),
      ∃ d, (rows.foldl (handleRow f) st).trace = st.trace ++ d ∧
        ∀ e ∈ d, isUpsertEvent e = true := by
  intro rows
  induction rows with
  | nil => intro st; exact ⟨[], by simp, by simp⟩
  | cons r rs ih =>
    intro st
    obtain ⟨d1, h1, a1⟩ := handleRow_trace f st r
    obtain ⟨d2, h2, a2⟩ := ih (handleRow f st r)
    refine ⟨d1 ++ d2, ?_, ?_⟩
    · simp only [List.foldl_cons]
      rw [h2, h1, List.append_assoc]
    · intro e he
      rcases List.mem_append.mp he with h | h
      exacts [a1 e h, a2 e h]

lemma deleteChunksRun_trace (g : Nat → Bool) :
    ∀ (cs : List (List Nat)) (k : Nat) (st : RunState),
      ∃ d, ((deleteChunksRun g k st cs).2).trace = st.trace ++ d ∧
        ∀ e ∈ d, isDeleteEvent e = true := by
  intro cs
  induction cs with
  | nil => intro k st; exact ⟨[], by simp [deleteChunksRun], by simp⟩
  | cons c cs ih =>
    intro k st
    unfold deleteChunksRun
    split_ifs with hg
    · exact ⟨[Event.deleteFailed c], rfl, by simp [isDeleteEvent]⟩
    · obtain ⟨d, hd, ha⟩ := ih (k + 1) _
      refine ⟨Event.deleteBatch c :: d, ?_, ?_⟩
      · rw [hd]
        simp
      · intro e he
        rcases List.mem_cons.mp he with h | h
        · rw [h]; rfl
        · exact ha e h

lemma deletePipeline_trace (g : Nat → Bool) (dbIds : List Nat) (st : RunState) :
    ∃ d2, ((deletePipeline g dbIds st).1).trace = st.trace ++ Event.resolve :: d2 ∧
      ∀ e ∈ d2, isDeleteEvent e = true ∨ e = Event.summary := by
  unfold deletePipeline
  obtain ⟨d, hd, ha⟩ := deleteChunksRun_trace g
    (sliceChunks CHUNK_SIZE (difference dbIds st.products)) 0
    { st with trace := st.trace ++ [Event.resolve] }
  by_cases hdr : (deleteChunksRun g 0 { st with trace := st.trace ++ [Event.resolve] }
      (sliceChunks CHUNK_SIZE (difference dbIds st.products))).1
  · simp only [if_pos hdr]
    refine ⟨d ++ [Event.summary], ?_, ?_⟩
    · rw [hd]
      simp
    · intro e he
      rcases List.mem_append.mp he with h | h
      · exact Or.inl (ha e h)
      · simp only [List.mem_singleton] at h
        exact Or.inr h
  · simp only [if_neg hdr]
    refine ⟨d, ?_, fun e he => Or.inl (ha e he)⟩
    rw [hd]
    simp

lemma endPhase_trace (f g : Nat → Bool) (dbIds : List Nat) (st : RunState) :
    ∃ d1 d2, ((endPhase f g dbIds st).1).trace =
        st.trace ++ d1 ++ Event.resolve :: d2 ∧
      (∀ e ∈ d1, isUpsertEvent e = true) ∧
      (∀ e ∈ d2, isDeleteEvent e = true ∨ e = Event.summary) := by
  unfold endPhase
  have hflush : ∃ d1, ((if st.products.length > 0 then processChunk f st st.products
        else (true, st)).2).trace = st.trace ++ d1 ∧
      ∀ e ∈ d1, isUpsertEvent e = true := by
    split_ifs with h
    · exact processChunk_trace f st st.products
    · exact ⟨[], by simp, by simp⟩
  obtain ⟨d1, h1, a1⟩ := hflush
  by_cases hok : (if st.products.length > 0 then processChunk f st st.products
      else (true, st)).1
  · simp only [if_pos hok]
    obtain ⟨d2, h2, a2⟩ := deletePipeline_trace g dbIds
      (if st.products.length > 0 then processChunk f st st.products else (true, st)).2
    exact ⟨d1, d2, by rw [h2, h1, List.append_assoc], a1, a2⟩
  · simp only [if_neg hok]
    refine ⟨d1, [], ?_, a1, by simp⟩
    dsimp only
    rw [h1]

lemma updateDataset_trace_shape (fU fD : Nat → Bool) (storeInit rows : List Nat) :
    ∃ d1 d2, (updateDataset fU fD storeInit rows).trace =
        Event.count :: Event.snapshot :: (d1 ++ Event.resolve :: d2) ∧
      (∀ e ∈ d1, isUpsertEvent e = true) ∧
      (∀ e ∈ d2, isDeleteEvent e = true ∨ e = Event.summary) := by
  unfold updateDataset
  obtain ⟨da, ha1, ha2⟩ := foldl_handleRow_trace fU rows
    ⟨[], 0, 0, storeInit, Metrics.zero, [Event.count, Event.snapshot]⟩
  obtain ⟨d1, d2, h1, a1, a2⟩ := endPhase_trace fU fD storeInit
    (rows.foldl (handleRow fU) ⟨[], 0, 0, storeInit, Metrics.zero, [Event.count, Event.snapshot]⟩)
  refine ⟨da ++ d1, d2, ?_, ?_, a2⟩
  · dsimp only
    rw [h1, ha1]
    simp
  · intro e he
    rcases List.mem_append.mp he with h | h
    exacts [ha2 e h, a1 e h]

/-! ### Claim C2: position of the identifier-set snapshot -/

/-- C2 counterexample: in the concrete run with store `{9}` and a single CSV
row `5`, the upsert call does NOT precede the snapshot — the snapshot read
happens before the CSV stream is consumed, so the upsert only appears after
it in the trace, refuting the claim that all upsert batches complete before
the snapshot is fetched. -/
theorem snapshot_order_counterexample :
    ¬ upsertsBeforeSnapshot
      (updateDataset (fun _ => false) (fun _ => false) [9] [5]).trace := by
  intro h
  have h2 : (updateDataset (fun _ => false) (fun _ => false) [9] [5]).trace.get? 2 =
      some (Event.upsert [5]) := by decide
  have h1 : (updateDataset (fun _ => false) (fun _ => false) [9] [5]).trace.get? 1 =
      some Event.snapshot := by decide
  have hlt := h 2 1 (Event.upsert [5]) h2 (by decide) h1
  omega

/-- C2 amended: in every run the store identifier-set snapshot is fetched
before any upsert batch is issued and before any delete batch is issued —
no upsert or delete call precedes it in the trace (the only store
interaction before it is the `Products.count()` read that sizes the
progress log). -/
theorem snapshot_before_upserts_and_deletes (fU fD : Nat → Bool)
    (storeInit rows : List Nat) :
    ∃ pre rest, (updateDataset fU fD storeInit rows).trace =
        pre ++ Event.snapshot :: rest ∧
      ∀ e ∈ pre, isUpsertEvent e = false ∧ isDeleteEvent e = false := by
  obtain ⟨d1, d2, h, a1, a2⟩ := updateDataset_trace_shape fU fD storeInit rows
  refine ⟨[Event.count], d1 ++ Event.resolve :: d2, ?_, ?_⟩
  · rw [h]
    rfl
  · intro e he
    simp only [List.mem_singleton] at he
    rw [he]
    exact ⟨rfl, rfl⟩

/-! ### Claim C9: the promise resolves before the delete phase -/

/-- C9: the promise returned by `updateDataset` resolves as soon as the CSV
stream ends: in every run's trace the resolution event occurs before every
delete batch and before the metrics summary (which is emitted only from the
delete stream's `finish` callback), so the delete phase is still pending when
the run has already signalled success. -/
theorem promise_resolves_before_delete_phase (fU fD : Nat → Bool)
    (storeInit rows : List Nat) :
    (updateDataset fU fD storeInit rows).promiseResolved = true ∧
    ∃ pre post, (updateDataset fU fD storeInit rows).trace =
        pre ++ Event.resolve :: post ∧
      ∀ e ∈ pre, isDeleteEvent e = false ∧ e ≠ Event.summary := by
  refine ⟨rfl, ?_⟩
  obtain ⟨d1, d2, h, a1, a2⟩ := updateDataset_trace_shape fU fD storeInit rows
  refine ⟨Event.count :: Event.snapshot :: d1, d2, by rw [h]; rfl, ?_⟩
  intro e he
  rcases List.mem_cons.mp he with hm | hm
  · rw [hm]
    exact ⟨rfl, by simp⟩
  · rcases List.mem_cons.mp hm with hm2 | hm2
    · rw [hm2]
      exact ⟨rfl, by simp⟩
    · have hu := a1 _ hm2
      obtain ⟨hd, hs, _⟩ := isUpsertEvent_classify _ hu
      exact ⟨hd, hs⟩

/-! ### Claim C3: store-call failures are not fatal to the run -/

/-- C3 (code bug): a failing store call does not propagate as a fatal error.
Concrete run: store `{1}`, one CSV row `2`, and a delete call that rejects.
The promise has already resolved (the resolve event precedes the failed
delete call in the trace), the run is reported successful, and the summary is
never emitted — the claim requires the whole run to be reported as failed. -/
theorem storeFailure_not_fatal :
    (updateDataset (fun _ => false) (fun _ => true) [1] [2]).promiseResolved = true ∧
    (updateDataset (fun _ => false) (fun _ => true) [1] [2]).trace =
      [Event.count, Event.snapshot, Event.upsert [2], Event.resolve,
        Event.deleteFailed [1]] ∧
    Event.summary ∉ (updateDataset (fun _ => false) (fun _ => true) [1] [2]).trace := by
  exact ⟨rfl, by decide, by decide⟩

/-! ### Claim C1: the computed deletion set -/

lemma foldl_handleRow_flush (f : Nat → Bool) :
    ∀ (rows : List Nat) (st : RunState), rows ≠ [] →
      st.products.length + rows.length = CHUNK_SIZE →
      f st.chunkIdx = false →
      rows.foldl (handleRow f) st =
        { st with
          products := [],
          rowCount := st.rowCount + rows.length,
          chunkIdx := st.chunkIdx + 1,
          store := (bulkWrite st.store (st.products ++ rows)).1,
          metrics := updateMetrics st.metrics (bulkWrite st.store (st.products ++ rows)).2,
          trace := st.trace ++ [Event.upsert (st.products ++ rows)] } := by
  intro rows
  induction rows with
  | nil =>
    intro st hne
    exact absurd rfl hne
  | cons r rs ih =>
    intro st hne hlen hf
    obtain ⟨p, rc, ci, sto, met, tr⟩ := st
    cases rs with
    | nil =>
      simp only [List.length_cons, List.length_nil] at hlen
      have hfull : ((p ++ [r]).length = CHUNK_SIZE) := by
        simp only [List.length_append, List.length_cons, List.length_nil]
        omega
      have hnz : ¬ (p ++ [r]).length = 0 := by
        rw [hfull]
        simp [CHUNK_SIZE]
      have hfneg : ¬ f ci = true := by
        rw [hf]
        simp
      simp only [List.foldl_cons, List.foldl_nil, handleRow, processChunk]
      rw [if_pos hfull, if_neg hnz, if_neg hfneg]
      simp

    | cons r2 rs2 =>
      have hlt : ¬ (p ++ [r]).length = CHUNK_SIZE := by
        simp only [List.length_cons] at hlen
        simp only [List.length_append, List.length_cons, List.length_nil]
        omega
      have hstep : handleRow f ⟨p, rc, ci, sto, met, tr⟩ r =
          ⟨p ++ [r], rc + 1, ci, sto, met, tr⟩ := by
        simp only [handleRow]
        rw [if_neg hlt]
      simp only [List.foldl_cons] at *
      rw [hstep,
        ih ⟨p ++ [r], rc + 1, ci, sto, met, tr⟩ (by simp)
          (by simp only [List.length_append, List.length_cons, List.length_nil] at hlen ⊢; omega)
          hf]
      simp [List.append_assoc, List.singleton_append]
      all_goals omega

lemma endPhase_products_empty (f g : Nat → Bool) (dbIds : List Nat)
    (st : RunState) (h : st.products = []) :
    endPhase f g dbIds st = deletePipeline g dbIds st := by
  simp only [endPhase, h]
  simp

lemma deletionSet_full_chunk (R : List Nat) (hne : R ≠ [])
    (hR : R.length = CHUNK_SIZE) :
    (updateDataset (fun _ => false) (fun _ => false) [0] R).deletedProductIds = [0] ∧
    (0 : Nat) ∉ (updateDataset (fun _ => false) (fun _ => false) [0] R).store := by
  have hfold := foldl_handleRow_flush (fun _ => false) R
    ⟨[], 0, 0, [0], Metrics.zero, [Event.count, Event.snapshot]⟩ hne
    (by simpa using hR) rfl
  have hdiff : difference [0] ([] : List Nat) = [0] := by decide
  have hsc : sliceChunks CHUNK_SIZE ([0] : List Nat) = [[0]] := by decide
  constructor
  · simp only [updateDataset]
    rw [hfold, endPhase_products_empty _ _ _ _ rfl]
    simp only [deletePipeline]
    exact hdiff
  · simp only [updateDataset]
    rw [hfold, endPhase_products_empty _ _ _ _ rfl]
    simp only [deletePipeline, hdiff, hsc, deleteChunksRun]
    simp [List.mem_filter]

/-- C1 (code bug): the computed deletion set is not `S \ D`. With store ids
`{0}` and a desired-state CSV of exactly 1000 rows carrying ids `0, …, 999`
(one full chunk), the engine computes the deletion set `[0]` and the final
store no longer contains id `0`, although `0` occurs in the desired state:
the spec-level `S \ D` is empty here. The id sets of the chunks flushed
during the `data` phase are lost because the buffer is reset, so the diff
only sees rows still buffered at `end`. -/
theorem deletionSet_code_bug :
    (updateDataset (fun _ => false) (fun _ => false) [0]
      (List.range 1000)).deletedProductIds = [0] ∧
    (0 : Nat) ∉ (updateDataset (fun _ => false) (fun _ => false) [0]
      (List.range 1000)).store ∧
    (0 : Nat) ∈ List.range 1000 ∧
    difference [0] (List.range 1000) = [] := by
  have hR : (List.range 1000).length = CHUNK_SIZE := by
    simp [CHUNK_SIZE]
  have hne : List.range 1000 ≠ [] := by simp
  obtain ⟨h1, h2⟩ := deletionSet_full_chunk (List.range 1000) hne hR
  exact ⟨h1, h2, by decide, by decide⟩

end Catalog
